import Mathlib

/-!
Verification of the EDGAR filing scraper (Scripts/Scraper.py).

This development shallowly embeds the pure computational core of the
scraper: the index parser, the keyword matcher, the price-feature
engine, the per-filing enrichment control flow of main, and the
result-store merge.  Python strings are modelled as lists of
characters (ASCII case folding, as the configuration data is ASCII),
floats as rationals, and every external call (HTTP fetch, market-data
download, text-generation request) as an explicit oracle parameter:
a value of type Except Unit _ whose error case stands for a raised
exception.  Division by a zero denominator, which for the float
arithmetic of the source is a runtime fault (or a non-finite value),
is modelled by a distinguished constructor.
-/

namespace Scraper

/-- Python strings, modelled as lists of characters. -/
abbrev Str := List Char

/-- Coerce a Lean string literal into the model. -/
def strOf (s : String) : Str := s.data

/-- Python str.split(sep) for a one-character separator. -/
def splitOnChar (c : Char) : Str → List Str
  | [] => [[]]
  | x :: xs =>
    if x = c then [] :: splitOnChar c xs
    else
      match splitOnChar c xs with
      | [] => [[x]]
      | h :: t => (x :: h) :: t

/-- Python str.startswith. -/
def startsWithStr : Str → Str → Bool
  | [], _ => true
  | _ :: _, [] => false
  | a :: as, b :: bs => a = b && startsWithStr as bs

/-- Python substring containment, needle in haystack. -/
def containsSub (needle : Str) : Str → Bool
  | [] => needle.isEmpty
  | x :: xs => startsWithStr needle (x :: xs) || containsSub needle xs

/-- Python str.lower (ASCII case folding; the configured data is ASCII). -/
def pyLower (s : Str) : Str := s.map Char.toLower

/-- Python str.strip. -/
def pyStrip (s : Str) : Str :=
  ((s.dropWhile Char.isWhitespace).reverse.dropWhile Char.isWhitespace).reverse

/-- Python str.splitlines, for newline-delimited text (the master index
is line oriented; a trailing line terminator produces no extra line). -/
def splitlinesStr (s : Str) : List Str :=
  if s = [] then []
  else
    let parts := splitOnChar '\n' s
    if parts.getLast? = some [] then parts.dropLast else parts

/-- Python str.zfill: left-pad with zeros to the given width, keeping a
leading sign in front of the padding. -/
def zfill (w : ℕ) (s : Str) : Str :=
  if w ≤ s.length then s
  else
    match s with
    | [] => List.replicate w '0'
    | c :: rest =>
      if c = '+' ∨ c = '-' then c :: (List.replicate (w - s.length) '0' ++ rest)
      else List.replicate (w - s.length) '0' ++ s

/-- Python sep.join for a one-character separator. -/
def joinSep (sep : Char) : List Str → Str
  | [] => []
  | [s] => s
  | s :: rest => s ++ sep :: joinSep sep rest

/-- The configured form-type allow-list (Scripts/Scraper.py, FORM_TYPES). -/
def FORM_TYPES : List Str :=
  [strOf "8-K", strOf "4", strOf "13D", strOf "13G", strOf "DEF 14A"]

/-- The configured keyword list (Scripts/Scraper.py, KEYWORDS). -/
def KEYWORDS : List Str :=
  [ strOf "private placement",
    strOf "securities purchase agreement",
    strOf "entered into agreement",
    strOf "filed a shelf registration",
    strOf "acquired beneficial ownership",
    strOf "reverse stock split",
    strOf "PIPE financing",
    strOf "at-the-market-offering",
    strOf "public offering",
    strOf "debt financing" ]

/-- Embedding of find_keywords (Scripts/Scraper.py lines 133-136): the
text is lowercased, each keyword is tested as a raw substring of the
lowercased text, and the matching keywords are returned in keyword-list
order. -/
def find_keywords (text : Str) (keywords : List Str) : List Str :=
  let tl := pyLower text
  keywords.filter (fun kw => containsSub kw tl)

/-- Case-insensitive matching as the spec words it (both the keyword and
the text folded before the substring test); stated for comparison with
find_keywords, which folds only the text. -/
def find_keywords_case_insensitive (text : Str) (keywords : List Str) : List Str :=
  keywords.filter (fun kw => containsSub (pyLower kw) (pyLower text))

/-- Calendar dates as produced by the datetime library. -/
structure Date where
  year : ℕ
  month : ℕ
  day : ℕ
deriving DecidableEq, Repr

/-- Gregorian leap-year rule, as the datetime library implements it. -/
def isLeap (y : ℕ) : Bool := (y % 4 = 0 && y % 100 ≠ 0) || y % 400 = 0

/-- Number of days of a month, as the datetime library validates it. -/
def daysInMonth (y m : ℕ) : ℕ :=
  if m = 2 then (if isLeap y then 29 else 28)
  else if m = 4 ∨ m = 6 ∨ m = 9 ∨ m = 11 then 30 else 31

/-- Dates representable by the datetime library (year 1 to 9999). -/
def Date.Valid (d : Date) : Prop :=
  1 ≤ d.year ∧ d.year ≤ 9999 ∧ 1 ≤ d.month ∧ d.month ≤ 12 ∧
    1 ≤ d.day ∧ d.day ≤ daysInMonth d.year d.month

instance (d : Date) : Decidable d.Valid := by unfold Date.Valid; infer_instance

/-- The character of a decimal digit. -/
def digitChar (d : ℕ) : Char := Char.ofNat (48 + d)

/-- The value of a decimal digit character. -/
def charVal (c : Char) : ℕ := c.toNat - 48

/-- Numeric value of a string of decimal digits (most significant first). -/
def digitsToNat (s : Str) : ℕ := s.foldl (fun a c => a * 10 + charVal c) 0

/-- Little-endian decimal digits, by fuel-counted recursion so that the
definition is structural and evaluates inside the kernel. -/
def natDigitsAux : ℕ → ℕ → List ℕ
  | 0, _ => []
  | _ + 1, 0 => []
  | fuel + 1, n + 1 => (n + 1) % 10 :: natDigitsAux fuel ((n + 1) / 10)

/-- Little-endian decimal digits of a natural number. -/
def natDigits (n : ℕ) : List ℕ := natDigitsAux n n

/-- Decimal rendering of a natural number (empty for zero; every use
below pads to a fixed width, which restores the zeros). -/
def natToStr (n : ℕ) : Str := ((natDigits n).map digitChar).reverse

/-- Zero-padded decimal rendering to a given width. -/
def padNum (w n : ℕ) : Str := List.replicate (w - (natToStr n).length) '0' ++ natToStr n

/-- The YYYY-MM-DD rendering of a date, one of the two index date
encodings named by the spec. -/
def isoOf (d : Date) : Str :=
  padNum 4 d.year ++ '-' :: (padNum 2 d.month ++ '-' :: padNum 2 d.day)

/-- The YYYYMMDD rendering of a date, the other index date encoding. -/
def compactOf (d : Date) : Str :=
  padNum 4 d.year ++ padNum 2 d.month ++ padNum 2 d.day

/-- Embedding of strptime(date_str, "%Y-%m-%d") as called by parse_index:
a 4-digit year, a 1- or 2-digit month and day separated by hyphens
(the library's field patterns), a calendar-validity check, and the
value none standing for the ValueError the library raises otherwise. -/
def parseISOFields (ys ms ds : Str) : Option Date :=
  if ys.length = 4 ∧ ys.all Char.isDigit
      ∧ 1 ≤ ms.length ∧ ms.length ≤ 2 ∧ ms.all Char.isDigit
      ∧ 1 ≤ ds.length ∧ ds.length ≤ 2 ∧ ds.all Char.isDigit then
    let y := digitsToNat ys
    let m := digitsToNat ms
    let d := digitsToNat ds
    if 1 ≤ y ∧ 1 ≤ m ∧ m ≤ 12 ∧ 1 ≤ d ∧ d ≤ daysInMonth y m then some ⟨y, m, d⟩
    else none
  else none

/-- The strptime YYYY-MM-DD parse: exactly three hyphen-separated
fields, handed to the field validation. -/
def parseISO (s : Str) : Option Date :=
  match splitOnChar '-' s with
  | [ys, ms, ds] => parseISOFields ys ms ds
  | _ => none

/-- Embedding of strptime(date_str, "%Y%m%d") as called by parse_index,
on the 8-digit encoding the daily index uses: a 4-2-2 digit split with
the library's range and calendar checks (for 8-digit inputs the
library's pattern matching always commits to this split); none stands
for the raised ValueError.  Shorter unpadded digit strings, which the
index never produces and no theorem below relies on, are mapped to
none. -/
def parseCompact (s : Str) : Option Date :=
  if s.length = 8 ∧ s.all Char.isDigit then
    let y := digitsToNat (s.take 4)
    let m := digitsToNat ((s.drop 4).take 2)
    let d := digitsToNat (s.drop 6)
    if 1 ≤ y ∧ 1 ≤ m ∧ m ≤ 12 ∧ 1 ≤ d ∧ d ≤ daysInMonth y m then some ⟨y, m, d⟩
    else none
  else none

/-- The date-encoding dispatch of parse_index (Scripts/Scraper.py lines
113-117): a hyphen anywhere selects the YYYY-MM-DD parse, otherwise the
YYYYMMDD parse. -/
def parseFilingDate (s : Str) : Option Date :=
  if '-' ∈ s then parseISO s else parseCompact s

/-- Decidable equality for exception-carrying results, so concrete
parses can be checked by evaluation. -/
instance exceptDecEq {ε α : Type} [DecidableEq ε] [DecidableEq α] :
    DecidableEq (Except ε α) := fun a b =>
  match a, b with
  | .error e, .error f => decidable_of_iff (e = f) (by simp)
  | .ok x, .ok y => decidable_of_iff (x = y) (by simp)
  | .error _, .ok _ => isFalse (fun h => Except.noConfusion h)
  | .ok _, .error _ => isFalse (fun h => Except.noConfusion h)

/-- One parsed index record, with the fields parse_index builds. -/
structure Entry where
  cik : Str
  form : Str
  filingDate : Date
  filename : Str
deriving DecidableEq, Repr

/-- The header prefix parse_index searches for. -/
def headerStr : Str := strOf "CIK|Company Name|Form Type"

/-- The header test of parse_index line 100: strip, then startswith. -/
def isHeaderLine (l : Str) : Bool := startsWithStr headerStr (pyStrip l)

/-- Per-line behaviour of the parse_index loop body (lines 106-124):
none for a skipped line (field count not 5, or form not allow-listed),
an error value for the ValueError strptime raises on a malformed date
of an otherwise accepted line, and an entry otherwise (with the CIK
zero-padded to width 10). -/
def parseLine (line : Str) : Option (Except Unit Entry) :=
  match splitOnChar '|' line with
  | [cik, _comp, form, date_str, filename] =>
    if form ∈ FORM_TYPES then
      match parseFilingDate date_str with
      | some d => some (.ok ⟨zfill 10 cik, form, d, filename⟩)
      | none => some (.error ())
    else none
  | _ => none

/-- The records a single line contributes to the result (none when the
line is skipped or raises). -/
def lineYield (line : Str) : List Entry :=
  match parseLine line with
  | some (.ok e) => [e]
  | _ => []

/-- The accumulation loop of parse_index over the lines after the
header: skipped lines contribute nothing, a raising line aborts the
whole parse (the exception propagates out of parse_index, discarding
entries gathered so far), an accepted line is appended. -/
def processLines : List Str → Except Unit (List Entry)
  | [] => .ok []
  | l :: ls =>
    match parseLine l with
    | none => processLines ls
    | some (.error e) => .error e
    | some (.ok entry) => (processLines ls).map (entry :: ·)

/-- The header scan of parse_index lines 98-102: the lines strictly
after the first header line, or none when no line is a header. -/
def afterHeader : List Str → Option (List Str)
  | [] => none
  | l :: ls => if isHeaderLine l then some ls else afterHeader ls

/-- parse_index on an already-split line list: the empty list when no
header is found (line 103-104), otherwise the loop over the lines after
the header. -/
def parseLines (ls : List Str) : Except Unit (List Entry) :=
  match afterHeader ls with
  | none => .ok []
  | some rest => processLines rest

/-- Embedding of parse_index (Scripts/Scraper.py lines 91-125). -/
def parse_index (text : Str) : Except Unit (List Entry) :=
  parseLines (splitlinesStr text)

/-- One feature slot of the price-feature record.  val carries an exact
numeric value, unk is the Python None, std carries the sample standard
deviation of a window of closes symbolically (its square root is
irrational; no property below depends on its magnitude), nan is the
not-a-number a statistics call returns on a window of fewer than two
points, and divFault marks a division whose denominator is exactly
zero, which for the source's float arithmetic is a runtime fault or a
non-finite value rather than None. -/
inductive Feat where
  | unk : Feat
  | val (q : ℚ) : Feat
  | std (window : List ℚ) : Feat
  | nan : Feat
  | divFault : Feat
deriving DecidableEq, Repr

/-- The five-slot record get_price_changes returns. -/
structure PriceFeats where
  pct_1d : Feat
  pct_3d : Feat
  pct_before : Feat
  volatility_before : Feat
  volume_change : Feat
deriving DecidableEq, Repr

/-- The all-None record of the absent-date early return. -/
def allUnknown : PriceFeats := ⟨.unk, .unk, .unk, .unk, .unk⟩

/-- The downloaded daily series: trading dates (abstract day numbers),
closes and volumes, column lengths tied to the index as in a data
frame. -/
structure Hist where
  dates : List ℕ
  closes : List ℚ
  volumes : List ℚ
  closes_len : closes.length = dates.length
  volumes_len : volumes.length = dates.length

/-- Python list.index restricted to first occurrence, as used on the
trading-date list (guarded by a membership test in the source). -/
def findIdxOf (fd : ℕ) : List ℕ → Option ℕ
  | [] => none
  | d :: ds => if d = fd then some 0 else (findIdxOf fd ds).map (· + 1)

/-- Embedding of get_price_changes (Scripts/Scraper.py lines 160-197)
on an already-downloaded series.  Position lookups out of the frame are
impossible by the frame invariant, so element access uses a defaulted
get; the guards mirror the source's truthiness tests, under which both
None and an exact zero are falsy.  The pct_3d guard tests only the
close three rows ahead, not the filing-date close it divides by. -/
def get_price_changes (hist : Hist) (filing_date : ℕ) : PriceFeats :=
  match findIdxOf filing_date hist.dates with
  | none => allUnknown
  | some idx =>
    let n := hist.dates.length
    let close_prev : Option ℚ :=
      if 1 ≤ idx then some (hist.closes.getD (idx - 1) 0) else none
    let close_0 : ℚ := hist.closes.getD idx 0
    let close_1d : Option ℚ :=
      if idx + 1 < n then some (hist.closes.getD (idx + 1) 0) else none
    let close_3d : Option ℚ :=
      if idx + 3 < n then some (hist.closes.getD (idx + 3) 0) else none
    let pct_1d : Feat :=
      match close_prev, close_1d with
      | some p, some c => if p ≠ 0 ∧ c ≠ 0 then .val ((c - p) / p) else .unk
      | _, _ => .unk
    let pct_3d : Feat :=
      match close_3d with
      | some c3 =>
        if c3 ≠ 0 then
          if close_0 = 0 then .divFault else .val ((c3 - close_0) / close_0)
        else .unk
      | none => .unk
    let pct_before : Feat :=
      match close_prev with
      | some p => if p ≠ 0 then .val ((close_0 - p) / p) else .unk
      | none => .unk
    let window := (hist.closes.take idx).drop (idx - 5)
    let vol_before : Feat := if 2 ≤ window.length then .std window else .nan
    let vwindow := (hist.volumes.take idx).drop (idx - 5)
    let volume_change : Feat :=
      match hist.volumes.get? idx with
      | none => .unk
      | some v =>
        let avg := vwindow.sum / (vwindow.length : ℚ)
        if vwindow ≠ [] ∧ avg ≠ 0 then .val (v / avg) else .unk
    ⟨pct_1d, pct_3d, pct_before, vol_before, volume_change⟩

/-- Embedding of summarize_text (Scripts/Scraper.py lines 138-157): the
external text-generation call is an oracle whose error case is any
raised exception; on success the response content is stripped, on
failure the empty string is returned. -/
def summarize_text (response : Except Unit Str) : Str :=
  match response with
  | .ok content => pyStrip content
  | .error _ => []

/-- One output row, with the eleven columns main assembles (lines
243-255 and the column selection at 261-273). -/
structure Row where
  ticker : Str
  form : Str
  filingDate : Date
  keywords : Str
  summary : Str
  volatility_before : Feat
  summary_length : ℕ
  has_numbers : Bool
  num_keywords_matched : ℕ
  market_cap : Option ℚ
  sector : Option Str
deriving DecidableEq, Repr

/-- The external calls one filing's enrichment performs, as oracles:
the document fetch, the market-data series download reaching
get_price_changes, the text-generation request reaching
summarize_text, and the fundamentals lookup (market cap and sector,
each possibly absent from a successful response).  An error case is a
raised exception. -/
structure Calls where
  fetchDoc : Except Unit Str
  priceResult : Except Unit PriceFeats
  summResponse : Except Unit Str
  infoResult : Except Unit (Option ℚ × Option Str)

/-- Embedding of the per-filing body of main (Scripts/Scraper.py lines
222-258): everything runs inside a catch-all handler whose handler is
a bare continue, so any raised exception yields none (the filing is
skipped and the loop moves on); a filing with no matched keyword also
yields none without any enrichment call; otherwise the row is built,
with summarize_text never raising. -/
def process_entry (ticker : Str) (entry : Entry) (c : Calls) : Option Row :=
  match c.fetchDoc with
  | .error _ => none
  | .ok text =>
    let matched := find_keywords text KEYWORDS
    if matched.isEmpty then none
    else
      match c.priceResult with
      | .error _ => none
      | .ok feats =>
        let summary := summarize_text c.summResponse
        match c.infoResult with
        | .error _ => none
        | .ok (market_cap, sector) =>
          some ⟨ticker, entry.form, entry.filingDate, joinSep ';' matched, summary,
            feats.volatility_before, summary.length, summary.any Char.isDigit,
            matched.length, market_cap, sector⟩

/-- The filing loop of main over one date's entries: rows of filings
whose processing completed, in entry order; a skipped filing affects
nothing else. -/
def process_filings (entries : List Entry) (tickerOf : Entry → Str)
    (callsOf : Entry → Calls) : List Row :=
  entries.filterMap (fun e => process_entry (tickerOf e) e (callsOf e))

/-- The date-source dispatch of main (Scripts/Scraper.py lines
204-208): with no explicit date the run takes the dates listed in
selected_dates.csv (passed here as the file's parsed column), with an
explicit date exactly that one date. -/
def date_list (date_source : Option Str) (selected_dates : List Str) : List Str :=
  match date_source with
  | none => selected_dates
  | some d => [d]

/-- The per-date loop of main (lines 211-217 and onward): the index
fetch is an oracle (none standing for the HTTP error the source
catches); a failed date is skipped with a continue and contributes
nothing, a fetched date contributes whatever its processing yields. -/
def main_loop (fetch : Str → Option Str) (process : Str → List Row) :
    List Str → List Row
  | [] => []
  | d :: rest =>
    (match fetch d with
     | none => []
     | some text => process text) ++ main_loop fetch process rest

/-- Possible run outcomes: the source always completes normally with
its accumulated rows; the fatal constructor exists only to state the
claimed no-index-found termination, which the code has no path to. -/
inductive RunOutcome where
  | completed (rows : List Row) : RunOutcome
  | fatalNoIndex : RunOutcome
deriving DecidableEq

/-- The orchestrator of main over its date handling: select the dates,
run the loop, and complete normally with the accumulated results. -/
def main_run (fetch : Str → Option Str) (process : Str → List Row)
    (date_source : Option Str) (selected_dates : List Str) : RunOutcome :=
  .completed (main_loop fetch process (date_list date_source selected_dates))

/-- Pandas drop_duplicates with its default keep-first policy, written
with an accumulator of already-seen elements so the recursion is
structural. -/
def dedupSeen {α : Type} [DecidableEq α] (seen : List α) : List α → List α
  | [] => []
  | x :: xs =>
    if x ∈ seen then dedupSeen seen xs else x :: dedupSeen (x :: seen) xs

/-- The elements seen after scanning a list, for splitting dedupSeen
over an append. -/
def pushSeen {α : Type} [DecidableEq α] (seen : List α) : List α → List α
  | [] => seen
  | x :: xs => if x ∈ seen then pushSeen seen xs else pushSeen (x :: seen) xs

/-- Pandas DataFrame.drop_duplicates: keep the first occurrence of each
row, preserving order. -/
def drop_duplicates {α : Type} [DecidableEq α] (l : List α) : List α :=
  dedupSeen [] l

/-- The result-store merge of main (lines 274-277): concatenate the
persisted rows with the run's rows and drop exact duplicates. -/
def mergeStore {α : Type} [DecidableEq α] (existing new : List α) : List α :=
  drop_duplicates (existing ++ new)

/-- The declared schema of the output store: the column selection of
main lines 261-273. -/
def schema_columns : List String :=
  ["ticker", "form", "filingDate", "keywords", "summary",
   "volatility_before", "summary_length", "has_numbers",
   "num_keywords_matched", "market_cap", "sector"]

/-- A flat table as pandas holds it: named columns and rows aligned to
them positionally, a missing cell (NaN) as none. -/
structure Table (α : Type) where
  cols : List String
  rows : List (List (Option α))
deriving DecidableEq

/-- The cell of a row at a named column, none when the column is absent
from the row's own schema (the NaN fill of a reindex). -/
def cellOf {α : Type} (cols : List String) (row : List (Option α)) (c : String) :
    Option α :=
  match cols.indexOf? c with
  | some i => row.getD i none
  | none => none

/-- Column union as pd.concat aligns frames with unequal columns (the
default no-sort behaviour): the first frame's columns, then the second
frame's new columns in order of appearance. -/
def concatCols (c1 c2 : List String) : List String :=
  c1 ++ c2.filter (fun c => ¬ c ∈ c1)

/-- pd.concat of two frames: the column union, every row of either
frame reindexed to it with missing cells NaN. -/
def pd_concat {α : Type} (t1 t2 : Table α) : Table α :=
  let cols := concatCols t1.cols t2.cols
  ⟨cols,
    t1.rows.map (fun r => cols.map (cellOf t1.cols r)) ++
      t2.rows.map (fun r => cols.map (cellOf t2.cols r))⟩

/-- The store merge at the table level, as main performs it when the
output file exists: concatenate, then drop duplicate rows.  The
function is total: no column-shape validation exists in the source. -/
def mergeTables {α : Type} [DecidableEq α] (t1 t2 : Table α) : Table α :=
  let c := pd_concat t1 t2
  ⟨c.cols, drop_duplicates c.rows⟩

/-- A concrete output row, for instantiating the store properties. -/
def sampleRowA : Row :=
  ⟨strOf "AAA", strOf "8-K", ⟨2024, 3, 1⟩, [], [], .unk, 0, false, 0, none, none⟩

/-- A second concrete output row, differing from the first. -/
def sampleRowB : Row := { sampleRowA with ticker := strOf "BBB" }

/-- A persisted store written under a narrower legacy schema. -/
def legacyStore : Table String :=
  ⟨["ticker", "form"], [[some "AAA", some "8-K"]]⟩

/-- A current run's table under the declared schema. -/
def currentRun : Table String :=
  ⟨schema_columns,
    [[some "AAPL", some "8-K", some "2024-03-01", some "kw", some "s",
      some "0.1", some "1", some "True", some "1", some "10", some "Tech"]]⟩

end Scraper

namespace Scraper

/-- A date not occurring in a list is never found by the index search. -/
lemma findIdxOf_eq_none {fd : ℕ} {ds : List ℕ} (h : fd ∉ ds) :
    findIdxOf fd ds = none := by
  induction ds with
  | nil => rfl
  | cons d ds ih =>
    have hd : ¬ d = fd := fun hdfd => h (hdfd ▸ List.mem_cons_self d ds)
    have ht : fd ∉ ds := fun hm => h (List.mem_cons_of_mem d hm)
    simp [findIdxOf, hd, ih ht]

/-- A filing date absent from the series makes get_price_changes take
its early all-None return. -/
lemma gpc_absent {hist : Hist} {fd : ℕ} (h : fd ∉ hist.dates) :
    get_price_changes hist fd = allUnknown := by
  unfold get_price_changes
  rw [findIdxOf_eq_none h]

/-- C5: find_keywords is claimed to return exactly the keywords occurring
in the text under case-insensitive comparison.  The code lowercases only
the text, so the configured keyword "PIPE financing" (which is in
KEYWORDS) can never match any text: on a text that contains the phrase
in lower case, find_keywords returns the empty list, while the
case-insensitive reading of the claim (and the function's own docstring)
requires the keyword to be returned.  This evaluates the embedded code
at that failing input. -/
theorem find_keywords_not_case_insensitive :
    find_keywords (strOf "pipe financing announced") [strOf "PIPE financing"] = []
    ∧ find_keywords_case_insensitive (strOf "pipe financing announced")
        [strOf "PIPE financing"] = [strOf "PIPE financing"]
    ∧ strOf "PIPE financing" ∈ KEYWORDS := by
  refine ⟨by decide, by decide, by decide⟩

/-- C1: every feature with a zero or unknown denominator is claimed to
come back as None.  The pct_3d guard of get_price_changes tests only
the close three rows ahead, not the filing-date close it divides by:
on a series whose filing-date close is exactly zero while the close
three rows ahead is nonzero, the code divides by zero (a runtime fault
for float operands, a non-finite value for the array scalars the data
frame yields), not None.  The sibling implementation in
Backtesting/Testing_Data_Scraper.py guards the same quotient with the
filing-date close, marking the missing guard here as the slip. -/
theorem gpc_pct3d_zero_close_divides :
    (get_price_changes
        ⟨[10, 11, 12, 13, 14], [1, 0, 1, 1, 2], [1, 1, 1, 1, 1], rfl, rfl⟩ 11).pct_3d
      = Feat.divFault
    ∧ Feat.divFault ≠ Feat.unk := by
  exact ⟨by decide, by decide⟩

/-- C2: when the filing date is absent from the fetched series'
trading dates, every one of the five features is None and the call
completes normally (the embedded function is total and returns the
all-None record). -/
theorem gpc_absent_date_all_unknown (hist : Hist) (fd : ℕ) (h : fd ∉ hist.dates) :
    get_price_changes hist fd = allUnknown :=
  gpc_absent h

/-- Witness for gpc_absent_date_all_unknown at a one-row series and a
filing date it does not contain. -/
theorem gpc_absent_date_all_unknown_witness :
    get_price_changes ⟨[5], [1], [1], rfl, rfl⟩ 7 = allUnknown :=
  gpc_absent_date_all_unknown ⟨[5], [1], [1], rfl, rfl⟩ 7 (by decide)

/-- C10: a closing price equal to exactly zero is treated as missing by
the truthiness guards: pct_1d is None whenever the prior close is zero
or out of range or the next-day close is zero or out of range, and
pct_before is None whenever the prior close is zero or out of range. -/
theorem gpc_zero_close_guards (hist : Hist) (fd idx : ℕ)
    (h : findIdxOf fd hist.dates = some idx) :
    ((idx = 0 ∨ hist.closes.getD (idx - 1) 0 = 0) →
       (get_price_changes hist fd).pct_1d = Feat.unk ∧
       (get_price_changes hist fd).pct_before = Feat.unk)
    ∧ ((hist.dates.length ≤ idx + 1 ∨ hist.closes.getD (idx + 1) 0 = 0) →
       (get_price_changes hist fd).pct_1d = Feat.unk) := by
  unfold get_price_changes
  rw [h]
  constructor
  · rintro (h0 | hz)
    · subst h0
      constructor <;> simp
    · refine ⟨?_, ?_⟩ <;>
      · by_cases h1 : 1 ≤ idx <;> by_cases h2 : idx + 1 < hist.dates.length <;>
          simp_all [List.getD]
  · rintro (hn | hz)
    · have h2 : ¬ idx + 1 < hist.dates.length := by omega
      by_cases h1 : 1 ≤ idx <;> simp [h1, h2]
    · by_cases h1 : 1 ≤ idx <;> by_cases h2 : idx + 1 < hist.dates.length <;>
        simp_all [List.getD]

/-- Witness for gpc_zero_close_guards: a two-row series whose prior
close is exactly zero yields None for pct_1d and pct_before. -/
theorem gpc_zero_close_guards_witness :
    (get_price_changes ⟨[1, 2], [0, 5], [1, 1], rfl, rfl⟩ 2).pct_1d = Feat.unk ∧
    (get_price_changes ⟨[1, 2], [0, 5], [1, 1], rfl, rfl⟩ 2).pct_before = Feat.unk :=
  (gpc_zero_close_guards ⟨[1, 2], [0, 5], [1, 1], rfl, rfl⟩ 2 1 (by decide)).1
    (Or.inr (by decide))

/-- C3 counterexample: in no-date mode the orchestrator does not scan
backward from yesterday and has no fatal no-index outcome.  With a
one-date selected_dates list and an index fetch that fails on every
date, the attempted dates are exactly the one listed date (one attempt,
not up to seven), and the run completes normally with an empty result
list instead of terminating as fatal. -/
theorem main_no_backward_retry_cex :
    main_run (fun _ => none) (fun _ => []) none [strOf "20240301"]
      = RunOutcome.completed []
    ∧ (date_list none [strOf "20240301"]).length = 1
    ∧ RunOutcome.completed ([] : List Row) ≠ RunOutcome.fatalNoIndex := by
  refine ⟨rfl, rfl, by decide⟩

/-- C3 (amended): with no explicit date, main takes the dates parsed
from selected_dates.csv as they are; a date whose index fetch raises is
skipped with a continue and contributes nothing; and the run always
completes normally with the loop's accumulated rows — there is no
7-day backward retry and no fatal no-index termination. -/
theorem main_no_date_reads_file_and_skips (selected : List Str)
    (fetch : Str → Option Str) (process : Str → List Row)
    (d : Str) (rest : List Str) :
    date_list none selected = selected
    ∧ (fetch d = none →
        main_loop fetch process (d :: rest) = main_loop fetch process rest)
    ∧ main_run fetch process none selected
        = RunOutcome.completed (main_loop fetch process selected) := by
  refine ⟨rfl, fun hf => ?_, rfl⟩
  simp [main_loop, hf]

/-- Witness for main_no_date_reads_file_and_skips: a failing fetch on a
concrete date is skipped. -/
theorem main_no_date_reads_file_and_skips_witness :
    main_loop (fun _ => none) (fun _ => []) [strOf "20240301"]
      = main_loop (fun _ => none) (fun _ => []) [] :=
  (main_no_date_reads_file_and_skips [strOf "20240301"] (fun _ => none)
      (fun _ => []) (strOf "20240301") []).2.1 rfl

/-- C4 counterexample: a filing whose document fetch and price call
succeed and whose text matches a keyword is nevertheless dropped from
the output when the fundamentals market-data call raises: the
catch-all handler of main turns the exception into a continue, so
process_entry yields none rather than a row with degraded fields. -/
theorem process_entry_market_data_raise_cex :
    process_entry (strOf "ABC")
      ⟨strOf "0000000001", strOf "8-K", ⟨2024, 3, 1⟩, strOf "edgar/x.txt"⟩
      ⟨.ok (strOf "the company entered into agreement today"), .ok allUnknown,
        .ok (strOf "a summary"), .error ()⟩ = none
    ∧ find_keywords (strOf "the company entered into agreement today") KEYWORDS ≠ [] := by
  exact ⟨by decide, by decide⟩

/-- C4 (amended): a summarization failure degrades to the empty-string
summary with the filing still included; a market-data failure in the
provider's degraded mode (a fetched series not containing the filing
date) leaves the filing included with the unknown volatility feature;
and the filing loop processes each entry independently, so a skipped
entry affects no other.  A market-data call that raises, however,
drops its filing (the counterexample above). -/
theorem enrichment_degradation (ticker : Str) (entry : Entry) (text : Str)
    (feats : PriceFeats) (mc : Option ℚ) (sec : Option Str)
    (hist : Hist) (fd : ℕ) (summResp : Except Unit Str) :
    (find_keywords text KEYWORDS ≠ [] →
      process_entry ticker entry ⟨.ok text, .ok feats, .error (), .ok (mc, sec)⟩
        = some ⟨ticker, entry.form, entry.filingDate,
            joinSep ';' (find_keywords text KEYWORDS), [],
            feats.volatility_before, 0, false,
            (find_keywords text KEYWORDS).length, mc, sec⟩)
    ∧ (find_keywords text KEYWORDS ≠ [] → fd ∉ hist.dates →
      ∃ row, process_entry ticker entry
          ⟨.ok text, .ok (get_price_changes hist fd), summResp, .ok (mc, sec)⟩
            = some row
        ∧ row.volatility_before = Feat.unk)
    ∧ (∀ (entries : List Entry) (tickerOf : Entry → Str) (callsOf : Entry → Calls)
        (e : Entry),
        process_filings (e :: entries) tickerOf callsOf
          = (match process_entry (tickerOf e) e (callsOf e) with
             | some r => [r]
             | none => []) ++ process_filings entries tickerOf callsOf) := by
  refine ⟨fun hm => ?_, fun hm habs => ?_, fun entries tickerOf callsOf e => ?_⟩
  · have hm' : (find_keywords text KEYWORDS).isEmpty = false := by
      simpa [List.isEmpty_iff] using hm
    simp [process_entry, summarize_text, hm']
  · have hm' : (find_keywords text KEYWORDS).isEmpty = false := by
      simpa [List.isEmpty_iff] using hm
    refine ⟨⟨ticker, entry.form, entry.filingDate,
        joinSep ';' (find_keywords text KEYWORDS), summarize_text summResp,
        Feat.unk, (summarize_text summResp).length,
        (summarize_text summResp).any Char.isDigit,
        (find_keywords text KEYWORDS).length, mc, sec⟩, ?_, rfl⟩
    simp [process_entry, hm', gpc_absent habs, allUnknown]
  · unfold process_filings
    rw [List.filterMap_cons]
    cases hpe : process_entry (tickerOf e) e (callsOf e) <;> simp [hpe]

/-- Witness for enrichment_degradation: a concrete filing whose
summarization call raises is included with an empty summary. -/
theorem enrichment_degradation_witness :
    process_entry (strOf "ABC")
      ⟨strOf "0000000001", strOf "8-K", ⟨2024, 3, 1⟩, strOf "edgar/x.txt"⟩
      ⟨.ok (strOf "a private placement was announced"), .ok allUnknown,
        .error (), .ok (none, none)⟩
      = some ⟨strOf "ABC", strOf "8-K", ⟨2024, 3, 1⟩,
          joinSep ';' (find_keywords (strOf "a private placement was announced") KEYWORDS),
          [], Feat.unk, 0, false,
          (find_keywords (strOf "a private placement was announced") KEYWORDS).length,
          none, none⟩ :=
  (enrichment_degradation (strOf "ABC")
      ⟨strOf "0000000001", strOf "8-K", ⟨2024, 3, 1⟩, strOf "edgar/x.txt"⟩
      (strOf "a private placement was announced") allUnknown none none
      ⟨[], [], [], rfl, rfl⟩ 0 (.error ())).1 (by decide)

/-- Membership in the keep-first deduplication: an element survives iff
it occurs in the list and was not already seen. -/
lemma mem_dedupSeen {α : Type} [DecidableEq α] {a : α} :
    ∀ {l seen : List α}, a ∈ dedupSeen seen l ↔ a ∈ l ∧ a ∉ seen := by
  intro l
  induction l with
  | nil => intro seen; simp [dedupSeen]
  | cons x xs ih =>
    intro seen
    by_cases hx : x ∈ seen
    · rw [dedupSeen, if_pos hx, ih]
      constructor
      · rintro ⟨h1, h2⟩
        exact ⟨List.mem_cons_of_mem x h1, h2⟩
      · rintro ⟨h1, h2⟩
        rcases List.mem_cons.mp h1 with h1 | h1
        · exact absurd (h1 ▸ hx) h2
        · exact ⟨h1, h2⟩
    · rw [dedupSeen, if_neg hx]
      simp only [List.mem_cons, ih]
      by_cases hax : a = x
      · subst hax; simp [hx]
      · simp only [hax, false_or]

/-- A list of fresh, pairwise-distinct elements deduplicates to itself. -/
lemma dedupSeen_eq_self {α : Type} [DecidableEq α] :
    ∀ {l seen : List α}, l.Nodup → (∀ a ∈ l, a ∉ seen) → dedupSeen seen l = l := by
  intro l
  induction l with
  | nil => intro seen _ _; rfl
  | cons x xs ih =>
    intro seen hnd hfresh
    have hx : x ∉ seen := hfresh x (List.mem_cons_self x xs)
    rw [dedupSeen, if_neg hx]
    congr 1
    refine ih (List.nodup_cons.mp hnd).2 fun a ha => ?_
    intro hmem
    rcases List.mem_cons.mp hmem with h | h
    · exact (List.nodup_cons.mp hnd).1 (h ▸ ha)
    · exact hfresh a (List.mem_cons_of_mem x ha) h

/-- A list entirely of already-seen elements deduplicates to nothing. -/
lemma dedupSeen_nil_of_seen {α : Type} [DecidableEq α] :
    ∀ {l seen : List α}, (∀ a ∈ l, a ∈ seen) → dedupSeen seen l = [] := by
  intro l
  induction l with
  | nil => intro seen _; rfl
  | cons x xs ih =>
    intro seen hall
    rw [dedupSeen, if_pos (hall x (List.mem_cons_self x xs))]
    exact ih fun a ha => hall a (List.mem_cons_of_mem x ha)

/-- Splitting the keep-first deduplication over an append. -/
lemma dedupSeen_append {α : Type} [DecidableEq α] :
    ∀ (l1 l2 seen : List α),
      dedupSeen seen (l1 ++ l2)
        = dedupSeen seen l1 ++ dedupSeen (pushSeen seen l1) l2 := by
  intro l1
  induction l1 with
  | nil => intro l2 seen; rfl
  | cons x xs ih =>
    intro l2 seen
    by_cases hx : x ∈ seen
    · simp only [List.cons_append, dedupSeen, pushSeen, if_pos hx]
      exact ih l2 seen
    · simp only [List.cons_append, dedupSeen, pushSeen, if_neg hx, List.append_eq]
      rw [ih l2 (x :: seen)]

/-- Membership of the seen-accumulator after scanning a list. -/
lemma mem_pushSeen {α : Type} [DecidableEq α] {a : α} :
    ∀ {l seen : List α}, a ∈ pushSeen seen l ↔ a ∈ seen ∨ a ∈ l := by
  intro l
  induction l with
  | nil => intro seen; simp [pushSeen]
  | cons x xs ih =>
    intro seen
    by_cases hx : x ∈ seen
    · rw [pushSeen, if_pos hx, ih]
      constructor
      · rintro (h | h)
        · exact Or.inl h
        · exact Or.inr (List.mem_cons_of_mem x h)
      · rintro (h | h)
        · exact Or.inl h
        · rcases List.mem_cons.mp h with h | h
          · exact Or.inl (h ▸ hx)
          · exact Or.inr h
    · rw [pushSeen, if_neg hx, ih]
      simp only [List.mem_cons]
      tauto

/-- Membership in the store merge is membership in either operand. -/
lemma mem_mergeStore {α : Type} [DecidableEq α] {r : α} {x y : List α} :
    r ∈ mergeStore x y ↔ r ∈ x ∨ r ∈ y := by
  unfold mergeStore drop_duplicates
  rw [mem_dedupSeen]
  simp

/-- C7 counterexample: the merge is not order-independent as a store
(an ordered table): merging row A then row B into an empty store and
merging B then A produce row orders that differ. -/
theorem merge_order_dependent_cex :
    mergeStore (mergeStore ([] : List Row) [sampleRowA]) [sampleRowB]
      = [sampleRowA, sampleRowB]
    ∧ mergeStore (mergeStore ([] : List Row) [sampleRowB]) [sampleRowA]
      = [sampleRowB, sampleRowA]
    ∧ [sampleRowA, sampleRowB] ≠ [sampleRowB, sampleRowA] := by
  exact ⟨by decide, by decide, by decide⟩

/-- C7 (amended): merging a deduplicated store with itself yields the
same store, and merging run A's results then run B's yields a store
with exactly the same rows as merging B then A, though possibly in a
different row order. -/
theorem merge_idem_and_set_comm :
    (∀ S : List Row, S.Nodup → mergeStore S S = S)
    ∧ (∀ S A B : List Row, ∀ r : Row,
        r ∈ mergeStore (mergeStore S A) B ↔ r ∈ mergeStore (mergeStore S B) A) := by
  constructor
  · intro S hS
    unfold mergeStore drop_duplicates
    rw [dedupSeen_append, dedupSeen_eq_self hS (by simp),
      dedupSeen_nil_of_seen fun a ha => mem_pushSeen.mpr (Or.inr ha)]
    simp
  · intro S A B r
    simp only [mem_mergeStore]
    tauto

/-- Witness for merge_idem_and_set_comm at concrete one-row stores. -/
theorem merge_idem_and_set_comm_witness :
    mergeStore [sampleRowA] [sampleRowA] = [sampleRowA]
    ∧ (sampleRowA ∈ mergeStore (mergeStore ([] : List Row) [sampleRowA]) [sampleRowB]
        ↔ sampleRowA ∈ mergeStore (mergeStore ([] : List Row) [sampleRowB]) [sampleRowA]) :=
  ⟨merge_idem_and_set_comm.1 [sampleRowA] (by decide),
   merge_idem_and_set_comm.2 [] [sampleRowA] [sampleRowB] sampleRowA⟩

/-- C8 counterexample: a persisted store whose column shape disagrees
with the declared schema is merged without any surfaced error: the
columns are silently unioned and the legacy row is filled with missing
values (NaN) in the columns it lacks. -/
theorem merge_schema_mismatch_silent_union_cex :
    legacyStore.cols ≠ currentRun.cols
    ∧ mergeTables legacyStore currentRun
      = ⟨schema_columns,
          [[some "AAA", some "8-K", none, none, none, none, none, none, none, none, none],
           [some "AAPL", some "8-K", some "2024-03-01", some "kw", some "s",
            some "0.1", some "1", some "True", some "1", some "10", some "Tech"]]⟩ := by
  exact ⟨by decide, by decide⟩

/-- C8 (amended): the merge never surfaces a shape error: for any two
tables it totals to the silent column union (store columns first, then
the run's new columns), with every merged row aligned to that union's
width by missing-value fill. -/
theorem merge_always_unions_columns {α : Type} [DecidableEq α] (t1 t2 : Table α) :
    (mergeTables t1 t2).cols = concatCols t1.cols t2.cols
    ∧ ∀ r ∈ (mergeTables t1 t2).rows,
        r.length = (concatCols t1.cols t2.cols).length := by
  refine ⟨rfl, fun r hr => ?_⟩
  simp only [mergeTables, drop_duplicates] at hr
  have hr' : r ∈ (pd_concat t1 t2).rows := (mem_dedupSeen.mp hr).1
  simp only [pd_concat, List.mem_append, List.mem_map] at hr'
  rcases hr' with ⟨row, _, hrow⟩ | ⟨row, _, hrow⟩ <;>
    rw [← hrow, List.length_map]

/-- Witness for merge_always_unions_columns at the mismatched concrete
tables: the legacy row, reindexed, has the union's width. -/
theorem merge_always_unions_columns_witness :
    (mergeTables legacyStore currentRun).cols
      = concatCols legacyStore.cols currentRun.cols
    ∧ ([some "AAA", some "8-K", none, none, none, none, none, none, none, none, none]
          : List (Option String)).length
        = (concatCols legacyStore.cols currentRun.cols).length :=
  ⟨(merge_always_unions_columns legacyStore currentRun).1,
   (merge_always_unions_columns legacyStore currentRun).2 _ (by decide)⟩

/-- The character of a digit below ten has the digit's value. -/
lemma charVal_digitChar {d : ℕ} (h : d < 10) : charVal (digitChar d) = d := by
  interval_cases d <;> decide

/-- The character of a digit below ten is a digit character. -/
lemma isDigit_digitChar {d : ℕ} (h : d < 10) : (digitChar d).isDigit = true := by
  interval_cases d <;> decide

/-- Peeling the last character off a digit-string evaluation. -/
lemma digitsToNat_append_singleton (l : Str) (c : Char) :
    digitsToNat (l ++ [c]) = digitsToNat l * 10 + charVal c := by
  simp [digitsToNat, List.foldl_append]

/-- The fuel-counted digit expansion agrees with the library digits. -/
lemma natDigitsAux_eq_digits :
    ∀ (fuel n : ℕ), n ≤ fuel → natDigitsAux fuel n = Nat.digits 10 n := by
  intro fuel
  induction fuel with
  | zero =>
    intro n hn
    interval_cases n
    simp [natDigitsAux]
  | succ fuel ih =>
    intro n hn
    match n with
    | 0 => simp [natDigitsAux]
    | n + 1 =>
      have hdiv : (n + 1) / 10 ≤ fuel := by
        have := Nat.div_lt_self (Nat.succ_pos n) (by norm_num : 1 < 10)
        omega
      rw [natDigitsAux, ih _ hdiv, Nat.digits_def' (by norm_num : 1 < 10) (Nat.succ_pos n)]

/-- The rendered digits of a number are the library digits. -/
lemma natDigits_eq_digits (n : ℕ) : natDigits n = Nat.digits 10 n :=
  natDigitsAux_eq_digits n n le_rfl

/-- Evaluating the rendered form of a little-endian digit list recovers
its value. -/
lemma digitsToNat_revMap :
    ∀ (ds : List ℕ), (∀ x ∈ ds, x < 10) →
      digitsToNat ((ds.map digitChar).reverse) = Nat.ofDigits 10 ds := by
  intro ds
  induction ds with
  | nil => intro _; rfl
  | cons x t ih =>
    intro h
    rw [List.map_cons, List.reverse_cons, digitsToNat_append_singleton,
      ih fun y hy => h y (List.mem_cons_of_mem x hy),
      charVal_digitChar (h x (List.mem_cons_self x t)), Nat.ofDigits_cons]
    ring

/-- Round trip: evaluating the decimal rendering recovers the number. -/
lemma digitsToNat_natToStr (n : ℕ) : digitsToNat (natToStr n) = n := by
  unfold natToStr
  rw [natDigits_eq_digits,
    digitsToNat_revMap _ fun x hx => Nat.digits_lt_base (by norm_num) hx,
    Nat.ofDigits_digits]

/-- A leading zero character does not change a digit string's value. -/
lemma digitsToNat_cons_zero (l : Str) : digitsToNat ('0' :: l) = digitsToNat l := rfl

/-- Leading zero padding does not change a digit string's value. -/
lemma digitsToNat_replicate_append (k : ℕ) (l : Str) :
    digitsToNat (List.replicate k '0' ++ l) = digitsToNat l := by
  induction k with
  | zero => rfl
  | succ k ih => rw [List.replicate_succ, List.cons_append, digitsToNat_cons_zero, ih]

/-- Round trip through the zero-padded rendering. -/
lemma digitsToNat_padNum (w n : ℕ) : digitsToNat (padNum w n) = n := by
  unfold padNum
  rw [digitsToNat_replicate_append, digitsToNat_natToStr]

/-- A number below the width's power renders within the width. -/
lemma natToStr_length_le {n k : ℕ} (h : n < 10 ^ k) : (natToStr n).length ≤ k := by
  unfold natToStr
  rw [List.length_reverse, List.length_map, natDigits_eq_digits]
  rcases Nat.eq_zero_or_pos n with h0 | h0
  · subst h0; simp
  · have hn0 : n ≠ 0 := by omega
    rw [Nat.digits_len 10 n (by norm_num) hn0]
    have := Nat.log_lt_of_lt_pow hn0 h
    omega

/-- The zero-padded rendering has exactly the requested width. -/
lemma padNum_length {w n : ℕ} (h : n < 10 ^ w) : (padNum w n).length = w := by
  unfold padNum
  rw [List.length_append, List.length_replicate]
  have := natToStr_length_le h
  omega

/-- Every character of a zero-padded rendering is a digit. -/
lemma padNum_all_digits (w n : ℕ) : ∀ c ∈ padNum w n, c.isDigit = true := by
  intro c hc
  unfold padNum at hc
  rcases List.mem_append.mp hc with h | h
  · rw [List.eq_of_mem_replicate h]; decide
  · unfold natToStr at h
    rw [List.mem_reverse] at h
    rcases List.mem_map.mp h with ⟨d, hd, rfl⟩
    refine isDigit_digitChar ?_
    rw [natDigits_eq_digits] at hd
    exact Nat.digits_lt_base (by norm_num) hd

/-- No hyphen occurs among the digits of a zero-padded rendering. -/
lemma hyphen_not_mem_padNum (w n : ℕ) : '-' ∉ padNum w n := fun hm =>
  absurd (padNum_all_digits w n '-' hm) (by decide)

/-- The split of a string never produces an empty list of fields. -/
lemma splitOnChar_ne_nil (c : Char) (s : Str) : splitOnChar c s ≠ [] := by
  cases s with
  | nil => simp [splitOnChar]
  | cons x xs =>
    rw [splitOnChar]
    split
    · simp
    · split <;> simp

/-- Splitting across the first separator occurrence. -/
lemma splitOnChar_append_cons (c : Char) :
    ∀ (xs ys : Str), c ∉ xs →
      splitOnChar c (xs ++ c :: ys) = xs :: splitOnChar c ys := by
  intro xs
  induction xs with
  | nil => intro ys _; simp [splitOnChar]
  | cons x t ih =>
    intro ys hx
    have hxc : ¬ x = c := fun h => hx (h ▸ List.mem_cons_self x t)
    rw [List.cons_append, splitOnChar, if_neg hxc,
      ih ys fun hm => hx (List.mem_cons_of_mem x hm)]

/-- A separator-free string splits into the single field it is. -/
lemma splitOnChar_of_not_mem (c : Char) :
    ∀ (s : Str), c ∉ s → splitOnChar c s = [s] := by
  intro s
  induction s with
  | nil => intro _; rfl
  | cons x t ih =>
    intro h
    have hxc : ¬ x = c := fun he => h (he ▸ List.mem_cons_self x t)
    rw [splitOnChar, if_neg hxc, ih fun hm => h (List.mem_cons_of_mem x hm)]

/-- Every month length fits the day-field range. -/
lemma daysInMonth_le_31 (y m : ℕ) : daysInMonth y m ≤ 31 := by
  unfold daysInMonth
  split_ifs <;> omega

/-- Every character of the compact rendering is a digit. -/
lemma compactOf_all_digits (d : Date) : ∀ c ∈ compactOf d, c.isDigit = true := by
  intro c hc
  unfold compactOf at hc
  rcases List.mem_append.mp hc with hc | hc
  · rcases List.mem_append.mp hc with hc | hc
    · exact padNum_all_digits 4 d.year c hc
    · exact padNum_all_digits 2 d.month c hc
  · exact padNum_all_digits 2 d.day c hc

/-- Splitting an 4-2-2 concatenation back into its parts. -/
lemma take_drop_422 {a b c : Str} (ha : a.length = 4) (hb : b.length = 2) :
    (a ++ b ++ c).take 4 = a
    ∧ ((a ++ b ++ c).drop 4).take 2 = b
    ∧ (a ++ b ++ c).drop 6 = c := by
  have htake : (a ++ b ++ c).take 4 = a := by
    rw [List.append_assoc, ← ha, List.take_left]
  have hdrop : (a ++ b ++ c).drop 4 = b ++ c := by
    rw [List.append_assoc, ← ha, List.drop_left]
  refine ⟨htake, ?_, ?_⟩
  · rw [hdrop, ← hb, List.take_left]
  · have h24 : ((a ++ b ++ c).drop 4).drop 2 = (a ++ b ++ c).drop 6 := by
      rw [List.drop_drop]
    rw [← h24, hdrop, ← hb, List.drop_left]

/-- The YYYY-MM-DD parse inverts the YYYY-MM-DD rendering on valid
dates. -/
lemma parseISO_isoOf {d : Date} (hv : d.Valid) : parseISO (isoOf d) = some d := by
  obtain ⟨h1, h2, h3, h4, h5, h6⟩ := hv
  have hy4 : d.year < 10 ^ 4 := by
    have hp : (10 : ℕ) ^ 4 = 10000 := by norm_num
    omega
  have hm2 : d.month < 10 ^ 2 := by
    have hp : (10 : ℕ) ^ 2 = 100 := by norm_num
    omega
  have hd2 : d.day < 10 ^ 2 := by
    have hp : (10 : ℕ) ^ 2 = 100 := by norm_num
    have := daysInMonth_le_31 d.year d.month
    omega
  have hml := padNum_length hm2
  have hdl := padNum_length hd2
  have hfields : parseISOFields (padNum 4 d.year) (padNum 2 d.month) (padNum 2 d.day)
      = some d := by
    unfold parseISOFields
    rw [if_pos ⟨padNum_length hy4, List.all_eq_true.mpr (padNum_all_digits 4 d.year),
      by omega, by omega, List.all_eq_true.mpr (padNum_all_digits 2 d.month),
      by omega, by omega, List.all_eq_true.mpr (padNum_all_digits 2 d.day)⟩]
    simp only [digitsToNat_padNum]
    rw [if_pos ⟨h1, h3, h4, h5, h6⟩]
  have hsplit : splitOnChar '-' (isoOf d)
      = [padNum 4 d.year, padNum 2 d.month, padNum 2 d.day] := by
    unfold isoOf
    rw [splitOnChar_append_cons '-' _ _ (hyphen_not_mem_padNum 4 d.year),
      splitOnChar_append_cons '-' _ _ (hyphen_not_mem_padNum 2 d.month),
      splitOnChar_of_not_mem '-' _ (hyphen_not_mem_padNum 2 d.day)]
  unfold parseISO
  rw [hsplit]
  exact hfields

/-- The YYYYMMDD parse inverts the YYYYMMDD rendering on valid dates. -/
lemma parseCompact_compactOf {d : Date} (hv : d.Valid) :
    parseCompact (compactOf d) = some d := by
  obtain ⟨h1, h2, h3, h4, h5, h6⟩ := hv
  have hy4 : d.year < 10 ^ 4 := by
    have hp : (10 : ℕ) ^ 4 = 10000 := by norm_num
    omega
  have hm2 : d.month < 10 ^ 2 := by
    have hp : (10 : ℕ) ^ 2 = 100 := by norm_num
    omega
  have hd2 : d.day < 10 ^ 2 := by
    have hp : (10 : ℕ) ^ 2 = 100 := by norm_num
    have := daysInMonth_le_31 d.year d.month
    omega
  have hyl := padNum_length hy4
  have hml := padNum_length hm2
  have hdl := padNum_length hd2
  have hparts := take_drop_422 (c := padNum 2 d.day) hyl hml
  have hlen : (compactOf d).length = 8 := by
    unfold compactOf
    simp only [List.length_append]
    omega
  unfold parseCompact
  rw [if_pos ⟨hlen, List.all_eq_true.mpr (compactOf_all_digits d)⟩]
  unfold compactOf
  simp only [hparts.1, hparts.2.1, hparts.2.2, digitsToNat_padNum]
  rw [if_pos ⟨h1, h3, h4, h5, h6⟩]

/-- The hyphen of the YYYY-MM-DD rendering selects the matching parse. -/
lemma parseFilingDate_isoOf {d : Date} (hv : d.Valid) :
    parseFilingDate (isoOf d) = some d := by
  unfold parseFilingDate
  rw [if_pos ?hmem, parseISO_isoOf hv]
  case hmem =>
    unfold isoOf
    exact List.mem_append.mpr (Or.inr (List.mem_cons_self _ _))

/-- The all-digit YYYYMMDD rendering selects the matching parse. -/
lemma parseFilingDate_compactOf {d : Date} (hv : d.Valid) :
    parseFilingDate (compactOf d) = some d := by
  unfold parseFilingDate
  rw [if_neg ?hmem, parseCompact_compactOf hv]
  case hmem =>
    intro hm
    exact absurd (compactOf_all_digits d '-' hm) (by decide)

/-- An accepted line parses to its entry. -/
lemma parseLine_accept {l cik comp form ds fn : Str} {d : Date}
    (hsplit : splitOnChar '|' l = [cik, comp, form, ds, fn])
    (hform : form ∈ FORM_TYPES) (hds : parseFilingDate ds = some d) :
    parseLine l = some (.ok ⟨zfill 10 cik, form, d, fn⟩) := by
  unfold parseLine
  rw [hsplit]
  simp [hform, hds]

/-- A line with a field count other than five is skipped. -/
lemma parseLine_wrong_count {l : Str} (h : (splitOnChar '|' l).length ≠ 5) :
    parseLine l = none := by
  unfold parseLine
  split
  · next cik comp form ds fn heq =>
    rw [heq] at h
    exact absurd rfl h
  · rfl

/-- A five-field line with a non-allow-listed form is skipped. -/
lemma parseLine_wrong_form {l cik comp form ds fn : Str}
    (hsplit : splitOnChar '|' l = [cik, comp, form, ds, fn])
    (hform : form ∉ FORM_TYPES) : parseLine l = none := by
  unfold parseLine
  rw [hsplit]
  simp [hform]

/-- When no line raises, the loop accepts exactly the per-line yields,
in order. -/
lemma processLines_ok :
    ∀ (ls : List Str), (∀ l ∈ ls, parseLine l ≠ some (.error ())) →
      processLines ls = .ok ((ls.map lineYield).flatten) := by
  intro ls
  induction ls with
  | nil => intro _; rfl
  | cons l ls ih =>
    intro h
    have ht := ih fun x hx => h x (List.mem_cons_of_mem l hx)
    cases hp : parseLine l with
    | none => simp [processLines, hp, lineYield, ht]
    | some r =>
      cases r with
      | error e =>
        cases e
        exact absurd hp (h l (List.mem_cons_self l ls))
      | ok entry => simp [processLines, hp, lineYield, ht, Except.map]

/-- When every line fails the header test, no header is found. -/
lemma afterHeader_none :
    ∀ {ls : List Str}, (∀ l ∈ ls, isHeaderLine l = false) → afterHeader ls = none := by
  intro ls
  induction ls with
  | nil => intro _; rfl
  | cons l t ih =>
    intro h
    rw [afterHeader, if_neg (by simp [h l (List.mem_cons_self l t)]),
      ih fun x hx => h x (List.mem_cons_of_mem l hx)]

/-- Lines before the first header do not affect the header scan. -/
lemma afterHeader_append {pre : List Str} (ls : List Str)
    (h : ∀ l ∈ pre, isHeaderLine l = false) :
    afterHeader (pre ++ ls) = afterHeader ls := by
  induction pre with
  | nil => rfl
  | cons l t ih =>
    rw [List.cons_append, afterHeader,
      if_neg (by simp [h l (List.mem_cons_self l t)]),
      ih fun x hx => h x (List.mem_cons_of_mem l hx)]

/-- C6: for a line after the header that splits into exactly five
pipe-delimited fields with an allow-listed form type and a filing date
carrying either the YYYY-MM-DD or the YYYYMMDD encoding of a valid
calendar date, the parse yields exactly the one record with the
normalized date (and zero-padded CIK); a line with a different field
count, or with a form type outside the allow-list, yields zero
records; and on an index whose post-header lines all parse without a
date fault, parse_index returns exactly the concatenation of the
per-line yields. -/
theorem parse_index_per_line (line : Str) :
    (∀ (cik comp form ds fn : Str) (d : Date),
        splitOnChar '|' line = [cik, comp, form, ds, fn] →
        form ∈ FORM_TYPES → d.Valid → (ds = isoOf d ∨ ds = compactOf d) →
        lineYield line = [⟨zfill 10 cik, form, d, fn⟩])
    ∧ ((splitOnChar '|' line).length ≠ 5 → lineYield line = [])
    ∧ (∀ (cik comp form ds fn : Str),
        splitOnChar '|' line = [cik, comp, form, ds, fn] →
        form ∉ FORM_TYPES → lineYield line = [])
    ∧ (∀ (text : Str) (rest : List Str),
        afterHeader (splitlinesStr text) = some rest →
        (∀ l ∈ rest, parseLine l ≠ some (.error ())) →
        parse_index text = .ok ((rest.map lineYield).flatten)) := by
  refine ⟨fun cik comp form ds fn d hsplit hform hval henc => ?_,
    fun hcount => ?_, fun cik comp form ds fn hsplit hform => ?_,
    fun text rest hrest hok => ?_⟩
  · have hds : parseFilingDate ds = some d := by
      rcases henc with henc | henc
      · rw [henc]; exact parseFilingDate_isoOf hval
      · rw [henc]; exact parseFilingDate_compactOf hval
    rw [lineYield, parseLine_accept hsplit hform hds]
  · rw [lineYield, parseLine_wrong_count hcount]
  · rw [lineYield, parseLine_wrong_form hsplit hform]
  · rw [parse_index, parseLines, hrest]
    exact processLines_ok rest hok

/-- Witness for parse_index_per_line: the scenario line of the spec
parses to its one record with the normalized date. -/
theorem parse_index_per_line_witness :
    lineYield (strOf "0000320193|Apple Inc|8-K|2024-03-01|edgar/data/320193/abc.txt")
      = [⟨zfill 10 (strOf "0000320193"), strOf "8-K", ⟨2024, 3, 1⟩,
          strOf "edgar/data/320193/abc.txt"⟩] :=
  (parse_index_per_line
      (strOf "0000320193|Apple Inc|8-K|2024-03-01|edgar/data/320193/abc.txt")).1
    (strOf "0000320193") (strOf "Apple Inc") (strOf "8-K") (strOf "2024-03-01")
    (strOf "edgar/data/320193/abc.txt") ⟨2024, 3, 1⟩
    (by decide) (by decide) (by decide) (Or.inl (by decide))

/-- C9 counterexample: the claim reads "no line starting with
CIK|Company Name|Form Type", but the code strips surrounding
whitespace before the prefix test.  An index whose header line carries
one leading blank contains no line starting with the header prefix,
yet parse_index still finds the header and returns a record, not the
empty sequence. -/
theorem parse_index_padded_header_cex :
    (∀ l ∈ splitlinesStr
        (strOf " CIK|Company Name|Form Type|Date Filed|Filename\n0000320193|Apple Inc|8-K|2024-03-01|edgar/x.txt"),
      startsWithStr headerStr l = false)
    ∧ parse_index
        (strOf " CIK|Company Name|Form Type|Date Filed|Filename\n0000320193|Apple Inc|8-K|2024-03-01|edgar/x.txt")
      ≠ .ok [] := by
  exact ⟨by decide, by decide⟩

/-- C9 (amended): for every raw index text none of whose lines passes
the header test (strip, then prefix comparison), parse_index returns
the empty sequence; and lines before the first header line never
contribute: the parse of any line list is unchanged by dropping a
header-free prefix. -/
theorem parse_index_header_gate :
    (∀ text : Str, (∀ l ∈ splitlinesStr text, isHeaderLine l = false) →
        parse_index text = .ok [])
    ∧ (∀ pre ls : List Str, (∀ l ∈ pre, isHeaderLine l = false) →
        parseLines (pre ++ ls) = parseLines ls) := by
  constructor
  · intro text h
    rw [parse_index, parseLines, afterHeader_none h]
  · intro pre ls h
    rw [parseLines, parseLines, afterHeader_append ls h]

/-- Witness for parse_index_header_gate: a concrete header-free text
parses to nothing, and a header-free prefix drops out. -/
theorem parse_index_header_gate_witness :
    parse_index (strOf "no header here\nfoo|bar") = .ok []
    ∧ parseLines ([strOf "preamble"] ++ [strOf "x|y"]) = parseLines [strOf "x|y"] :=
  ⟨parse_index_header_gate.1 (strOf "no header here\nfoo|bar") (by decide),
   parse_index_header_gate.2 [strOf "preamble"] [strOf "x|y"] (by decide)⟩

end Scraper
